import Mathlib

set_option maxHeartbeats 1000000

/-!
Shallow embedding of the InterviewPrep repository's clone-and-version
reconciliation core, together with proofs about it.

Embedded sources:
  * `src/lib/version.ts` — version parsing and comparison on resource names;
  * `src/lib/vapi/sanitize.ts` — read-only-field removal and empty pruning;
  * `src/unnamed/part_008` (`lib/vapi/client.ts`) — retry policy of
    `VapiClient.fetchWithRetry`;
  * `src/unnamed/part_023` (`app/api/vapi/clone/route.ts`) — the `POST`
    reconciliation orchestrator.

JavaScript strings are modelled as Lean `String` (with the character list
`String.toList` used where the source applies regular expressions), JSON
values as an inductive tree, machine integers as `Nat`/`Int` (version
components are small non-negative integers, no overflow is possible in the
source paths modelled here), and fallible calls as `Except`/oracle inputs.
-/

namespace InterviewPrep

/-! ## lib/version.ts -/

/-- Character automaton for the regular-expression fragment
`\d+(?:\.\d+)*` anchored at the end of the input: `expectDigit = true`
means the automaton is at the start of a (first or post-dot) digit group
and must still see at least one digit before accepting.  This is the
suffix grammar of `parseVersionFromName` (src/lib/version.ts:25) and the
whole-string grammar of `isValidVersion` (src/lib/version.ts:96). -/
def versionFrom (expectDigit : Bool) : List Char → Bool
  | [] => !expectDigit
  | c :: rest =>
    if c.isDigit then versionFrom false rest
    else if c = '.' then (if expectDigit then false else versionFrom true rest)
    else false

/-- Scan for the (unique, hence leftmost) occurrence of `_v` whose whole
remainder matches `\d+(?:\.\d+)*`; returns the captured version characters.
Embeds the regex search `name.match(/_v(\d+(?:\.\d+)*)$/)` of
src/lib/version.ts:25. -/
def findVSuffix : List Char → Option (List Char)
  | c :: r :: tail =>
    if c = '_' ∧ r = 'v' ∧ versionFrom true tail = true then some tail
    else findVSuffix (r :: tail)
  | _ => none

/-- Embeds `parseVersionFromName` (src/lib/version.ts:20-27): version suffix of a
resource name, or `none`.  The JS guard `!name` (empty string) is subsumed:
an empty character list yields `none`. -/
def parseVersionFromName (name : String) : Option String :=
  (findVSuffix name.toList).map fun l => ⟨l⟩

/-- Embeds `isValidVersion` (src/lib/version.ts:91-97): whole string matches
`^\d+(?:\.\d+)*$`; the JS guard `!version` is subsumed (empty list is
rejected by the automaton). -/
def isValidVersion (version : String) : Bool :=
  versionFrom true version.toList

/-- Embeds `buildVersionedName` (src/lib/version.ts:110-116).  The JS test
`!version` on a string argument is exactly the empty-string test. -/
def buildVersionedName (baseName : String) (version : String) : String :=
  if version = "" ∨ version = "0" then baseName
  else baseName ++ "_v" ++ version

/-- Character-list model of `v.split('.')` from
`compareVersions` (src/lib/version.ts:44-45). -/
def splitOnDot : List Char → List (List Char)
  | [] => [[]]
  | c :: rest =>
    if c = '.' then [] :: splitOnDot rest
    else
      match splitOnDot rest with
      | g :: gs => (c :: g) :: gs
      | [] => [[c]]

/-- JS `parseInt(n, 10)` restricted to all-digit components — the only
components produced by valid versions; the NaN paths of `parseInt` are
unreachable under the validity hypotheses used in the theorems below. -/
def parseIntDigits (l : List Char) : Nat :=
  l.foldl (fun a c => a * 10 + (c.toNat - 48)) 0

/-- The `parts` arrays of `compareVersions` (src/lib/version.ts:44-45). -/
def versionParts (v : String) : List Nat :=
  (splitOnDot v.toList).map parseIntDigits

/-- The while-loops of src/lib/version.ts:49-50: pad the shorter parts
array with zeros up to the common length. -/
def padTo (l : List Nat) (n : Nat) : List Nat :=
  l ++ List.replicate (n - l.length) 0

/-- The comparison for-loop of src/lib/version.ts:53-58 on the (already
padded, equal-length) component arrays. -/
def cmpLoop : List Nat → List Nat → Int
  | x :: xs, y :: ys =>
    if y < x then 1 else if x < y then -1 else cmpLoop xs ys
  | _, _ => 0

/-- Embeds `compareVersions` (src/lib/version.ts:42-59). -/
def compareVersions (v1 v2 : String) : Int :=
  let parts1 := versionParts v1
  let parts2 := versionParts v2
  let maxLength := max parts1.length parts2.length
  cmpLoop (padTo parts1 maxLength) (padTo parts2 maxLength)

/-! ### Order facts about the comparison loop -/

theorem cmpLoop_refl (l : List Nat) : cmpLoop l l = 0 := by
  induction l with
  | nil => rfl
  | cons x xs ih => simp [cmpLoop, ih]

theorem cmpLoop_range (a b : List Nat) :
    cmpLoop a b = -1 ∨ cmpLoop a b = 0 ∨ cmpLoop a b = 1 := by
  induction a generalizing b with
  | nil => cases b <;> simp [cmpLoop]
  | cons x xs ih =>
    cases b with
    | nil => simp [cmpLoop]
    | cons y ys =>
      simp only [cmpLoop]
      split
      · simp
      · split
        · simp
        · exact ih ys

theorem cmpLoop_swap (a : List Nat) : ∀ b, cmpLoop b a = -cmpLoop a b := by
  induction a with
  | nil => intro b; cases b <;> simp [cmpLoop]
  | cons x xs ih =>
    intro b
    cases b with
    | nil => simp [cmpLoop]
    | cons y ys =>
      simp only [cmpLoop]
      split_ifs <;> first | omega | simpa using ih ys

theorem cmpLoop_trans_le (a : List Nat) :
    ∀ b c, a.length = b.length → b.length = c.length →
    cmpLoop a b ≤ 0 → cmpLoop b c ≤ 0 → cmpLoop a c ≤ 0 := by
  induction a with
  | nil =>
    intro b c hab hbc _ _
    cases b <;> cases c <;> simp_all [cmpLoop]
  | cons x xs ih =>
    intro b c hab hbc h1 h2
    cases b with
    | nil => simp at hab
    | cons y ys =>
      cases c with
      | nil => simp at hbc
      | cons z zs =>
        have hab' : xs.length = ys.length := by simpa using hab
        have hbc' : ys.length = zs.length := by simpa using hbc
        simp only [cmpLoop] at h1 h2 ⊢
        split_ifs at h1 h2 ⊢ <;>
          first | omega | exact ih ys zs hab' hbc' h1 h2

theorem cmpLoop_trans_lt (a : List Nat) :
    ∀ b c, a.length = b.length → b.length = c.length →
    cmpLoop a b ≤ 0 → cmpLoop b c = -1 → cmpLoop a c = -1 := by
  induction a with
  | nil =>
    intro b c hab hbc _ h2
    cases b <;> cases c <;> simp_all [cmpLoop]
  | cons x xs ih =>
    intro b c hab hbc h1 h2
    cases b with
    | nil => simp at hab
    | cons y ys =>
      cases c with
      | nil => simp at hbc
      | cons z zs =>
        have hab' : xs.length = ys.length := by simpa using hab
        have hbc' : ys.length = zs.length := by simpa using hbc
        simp only [cmpLoop] at h1 h2 ⊢
        split_ifs at h1 h2 ⊢ <;>
          first | omega | exact ih ys zs hab' hbc' h1 h2

theorem cmpLoop_append_rep (x : List Nat) :
    ∀ y : List Nat, x.length = y.length → ∀ k,
    cmpLoop (x ++ List.replicate k 0) (y ++ List.replicate k 0) = cmpLoop x y := by
  induction x with
  | nil =>
    intro y hy k
    cases y with
    | nil => simpa using cmpLoop_refl (List.replicate k 0)
    | cons b bs => simp at hy
  | cons a xs ih =>
    intro y hy k
    cases y with
    | nil => simp at hy
    | cons b bs =>
      have hy' : xs.length = bs.length := by simpa using hy
      simp only [List.cons_append, cmpLoop]
      split_ifs <;> first | rfl | exact ih bs hy' k

theorem padTo_length (l : List Nat) (n : Nat) (h : l.length ≤ n) :
    (padTo l n).length = n := by
  simp [padTo]
  omega

theorem padTo_stable (l : List Nat) (m n : Nat) (hm : l.length ≤ m) (hn : m ≤ n) :
    padTo l n = padTo l m ++ List.replicate (n - m) 0 := by
  simp only [padTo, List.append_assoc, ← List.replicate_add]
  congr 2
  omega

theorem compareVersions_eq_cmpLoop (a b : String) (n : Nat)
    (h1 : (versionParts a).length ≤ n) (h2 : (versionParts b).length ≤ n) :
    compareVersions a b =
      cmpLoop (padTo (versionParts a) n) (padTo (versionParts b) n) := by
  unfold compareVersions
  set pa := versionParts a with hpa
  set pb := versionParts b with hpb
  set m := max pa.length pb.length with hm
  have hman : m ≤ n := by omega
  rw [padTo_stable pa m n (le_max_left _ _) hman,
      padTo_stable pb m n (le_max_right _ _) hman,
      cmpLoop_append_rep]
  rw [padTo_length pa m (le_max_left _ _), padTo_length pb m (le_max_right _ _)]

theorem compareVersions_refl (a : String) : compareVersions a a = 0 := by
  unfold compareVersions
  exact cmpLoop_refl _

theorem compareVersions_range (a b : String) :
    compareVersions a b = -1 ∨ compareVersions a b = 0 ∨ compareVersions a b = 1 := by
  unfold compareVersions
  exact cmpLoop_range _ _

theorem compareVersions_swap (a b : String) :
    compareVersions b a = -compareVersions a b := by
  set n := max (versionParts a).length (versionParts b).length with hn
  rw [compareVersions_eq_cmpLoop b a n (le_max_right _ _) (le_max_left _ _),
      compareVersions_eq_cmpLoop a b n (le_max_left _ _) (le_max_right _ _)]
  exact cmpLoop_swap _ _

theorem compareVersions_trans_le (a b c : String)
    (h1 : compareVersions a b ≤ 0) (h2 : compareVersions b c ≤ 0) :
    compareVersions a c ≤ 0 := by
  set n := max (max (versionParts a).length (versionParts b).length)
    (versionParts c).length with hn
  rw [compareVersions_eq_cmpLoop a b n (by omega) (by omega)] at h1
  rw [compareVersions_eq_cmpLoop b c n (by omega) (by omega)] at h2
  rw [compareVersions_eq_cmpLoop a c n (by omega) (by omega)]
  exact cmpLoop_trans_le _ _ _
    (by rw [padTo_length _ _ (by omega), padTo_length _ _ (by omega)])
    (by rw [padTo_length _ _ (by omega), padTo_length _ _ (by omega)]) h1 h2

theorem compareVersions_trans_lt (a b c : String)
    (h1 : compareVersions a b ≤ 0) (h2 : compareVersions b c = -1) :
    compareVersions a c = -1 := by
  set n := max (max (versionParts a).length (versionParts b).length)
    (versionParts c).length with hn
  rw [compareVersions_eq_cmpLoop a b n (by omega) (by omega)] at h1
  rw [compareVersions_eq_cmpLoop b c n (by omega) (by omega)] at h2
  rw [compareVersions_eq_cmpLoop a c n (by omega) (by omega)]
  exact cmpLoop_trans_lt _ _ _
    (by rw [padTo_length _ _ (by omega), padTo_length _ _ (by omega)])
    (by rw [padTo_length _ _ (by omega), padTo_length _ _ (by omega)]) h1 h2

/-! ### Facts about the version-suffix grammar -/

theorem versionFrom_chars (l : List Char) :
    ∀ e, versionFrom e l = true → ∀ c ∈ l, c.isDigit = true ∨ c = '.' := by
  induction l with
  | nil => intro e _ c hc; simp at hc
  | cons a rest ih =>
    intro e hv c hc
    simp only [versionFrom] at hv
    by_cases hdig : a.isDigit
    · rw [if_pos hdig] at hv
      rcases List.mem_cons.mp hc with h | h
      · exact Or.inl (h ▸ hdig)
      · exact ih false hv c h
    · rw [if_neg hdig] at hv
      by_cases hdot : a = '.'
      · rw [if_pos hdot] at hv
        cases e with
        | true => simp at hv
        | false =>
          rcases List.mem_cons.mp hc with h | h
          · exact Or.inr (h ▸ hdot)
          · exact ih true (by simpa using hv) c h
      · rw [if_neg hdot] at hv
        simp at hv

theorem versionFrom_no_underscore (l : List Char) (e : Bool)
    (h : versionFrom e l = true) : '_' ∉ l := by
  intro hmem
  rcases versionFrom_chars l e h '_' hmem with h' | h' <;>
    exact absurd h' (by decide)

theorem findVSuffix_append (vl : List Char) (hv : versionFrom true vl = true) :
    ∀ bl : List Char, findVSuffix (bl ++ '_' :: 'v' :: vl) = some vl := by
  intro bl
  induction bl with
  | nil => simp [findVSuffix, hv]
  | cons c bl ih =>
    cases hbl : bl ++ '_' :: 'v' :: vl with
    | nil => simp at hbl
    | cons r t =>
      have hstep : c :: bl ++ '_' :: 'v' :: vl = c :: r :: t := by
        rw [List.cons_append, hbl]
      rw [hstep]
      simp only [findVSuffix]
      rw [if_neg, ← hbl, ih]
      rintro ⟨hc, hr, ht⟩
      cases bl with
      | nil =>
        simp only [List.nil_append] at hbl
        injection hbl with h1 h2
        rw [← h1] at hr
        exact absurd hr (by decide)
      | cons b bl' =>
        simp only [List.cons_append] at hbl
        injection hbl with h1 h2
        have hmem : '_' ∈ t := by rw [← h2]; simp
        exact versionFrom_no_underscore t true ht hmem

theorem findVSuffix_valid (l : List Char) :
    ∀ tail, findVSuffix l = some tail → versionFrom true tail = true := by
  induction l with
  | nil => intro t h; simp [findVSuffix] at h
  | cons c rest ih =>
    intro t h
    cases rest with
    | nil => simp [findVSuffix] at h
    | cons r tl =>
      simp only [findVSuffix] at h
      split_ifs at h with hcond
      · injection h with h
        rw [← h]
        exact hcond.2.2
      · exact ih t h

/-! ### Claim theorems for lib/version.ts -/

/-- C5: `compareVersions` splits on `.`, pads with zeros and compares
component-wise (this is its definition above); it always returns one of
-1, 0, 1; it is reflexively 0 (in particular on every valid version);
`compareVersions "1.0" "1" = 0` and `compareVersions "2" "1.9.9" = 1`. -/
theorem compareVersions_total_spec :
    (∀ a b : String,
      compareVersions a b = -1 ∨ compareVersions a b = 0 ∨ compareVersions a b = 1) ∧
    (∀ a : String, compareVersions a a = 0) ∧
    compareVersions "1.0" "1" = 0 ∧
    compareVersions "2" "1.9.9" = 1 :=
  ⟨compareVersions_range, compareVersions_refl, by decide, by decide⟩

/-- C6: building a versioned name and parsing it back returns the version,
for any valid non-zero version (the hypothesis that the base name carries
no version-shaped suffix mirrors the claim; the result holds regardless);
and building with the zero or empty version returns the base name
unchanged. -/
theorem parse_build_roundtrip :
    (∀ b v : String, parseVersionFromName b = none → isValidVersion v = true →
      v ≠ "0" → parseVersionFromName (buildVersionedName b v) = some v) ∧
    (∀ b : String, buildVersionedName b "0" = b) ∧
    (∀ b : String, buildVersionedName b "" = b) := by
  refine ⟨?_, ?_, ?_⟩
  · intro b v _ hv hv0
    have hvne : v ≠ "" := by
      intro h
      rw [h] at hv
      exact absurd hv (by decide)
    rw [buildVersionedName, if_neg (by simp [hvne, hv0])]
    unfold parseVersionFromName
    have hdata : (b ++ "_v" ++ v).toList = b.toList ++ '_' :: 'v' :: v.toList := by
      show (b ++ "_v" ++ v).data = b.data ++ '_' :: 'v' :: v.data
      rw [String.data_append, String.data_append, List.append_assoc]
      rfl
    rw [hdata, findVSuffix_append v.toList hv b.toList]
    rfl
  · intro b
    simp [buildVersionedName]
  · intro b
    simp [buildVersionedName]

/-- Witness for C6 at a concrete input. -/
theorem parse_build_roundtrip_witness :
    parseVersionFromName "Interview Prep" = none ∧
    isValidVersion "2.1" = true ∧
    parseVersionFromName (buildVersionedName "Interview Prep" "2.1") = some "2.1" :=
  ⟨by decide, by decide,
    parse_build_roundtrip.1 "Interview Prep" "2.1" (by decide) (by decide) (by decide)⟩

/-- C10: every version string returned by `parseVersionFromName` satisfies
`isValidVersion`, so parse results can always be fed to `compareVersions`
within its valid-version precondition. -/
theorem parse_version_isValid (name v : String)
    (h : parseVersionFromName name = some v) : isValidVersion v = true := by
  unfold parseVersionFromName at h
  cases hf : findVSuffix name.toList with
  | none => rw [hf] at h; simp at h
  | some tail =>
    rw [hf] at h
    have h2 : some (⟨tail⟩ : String) = some v := h
    have h3 : (⟨tail⟩ : String) = v := by injection h2
    have htail := findVSuffix_valid name.toList tail hf
    rw [← h3]
    exact htail

/-- Witness for C10 at a concrete input. -/
theorem parse_version_isValid_witness :
    parseVersionFromName "Tool_v1.2" = some "1.2" ∧ isValidVersion "1.2" = true :=
  ⟨by decide, parse_version_isValid "Tool_v1.2" "1.2" (by decide)⟩

/-! ## lib/vapi/sanitize.ts

JSON values are modelled as a mutual inductive tree (`JsonList` and
`JsonFields` are specialised copies of `List Json` and
`List (String × Json)`; the mutual form gives structural recursion).
`Json.null` stands for both JS `null` and `undefined` (after the
`deepClone` of src/lib/vapi/sanitize.ts:45-47, which round-trips through
`JSON.stringify`, no `undefined` survives anyway, and `deepClone` is the
identity in this value semantics).  JS numbers only ever pass through the
sanitizer unchanged, so `Int` suffices for them. -/

mutual
inductive Json where
  | null
  | bool (b : Bool)
  | num (n : Int)
  | str (s : String)
  | arr (items : JsonList)
  | obj (fields : JsonFields)
inductive JsonList where
  | nil
  | cons (hd : Json) (tl : JsonList)
inductive JsonFields where
  | nil
  | cons (key : String) (val : Json) (tl : JsonFields)
end

/-- Embeds `ASSISTANT_READONLY_FIELDS` (src/lib/vapi/sanitize.ts:14-26). -/
def ASSISTANT_READONLY_FIELDS : List String :=
  ["id", "_id", "orgId", "createdAt", "updatedAt", "owner",
   "isServerUrlSecretSet", "phoneNumbers", "billing", "lastModifiedBy", "_rev"]

/-- Embeds `TOOL_READONLY_FIELDS` (src/lib/vapi/sanitize.ts:31-40). -/
def TOOL_READONLY_FIELDS : List String :=
  ["id", "_id", "orgId", "createdAt", "updatedAt", "owner", "lastModifiedBy", "_rev"]

/-- The JS test `value !== undefined && value !== null` (both modelled by
`Json.null`, see above). -/
def isNull : Json → Bool
  | .null => true
  | _ => false

/-- The two `continue` guards of src/lib/vapi/sanitize.ts:154-159: an empty
object or an empty array. -/
def isEmptyContainer : Json → Bool
  | .obj .nil => true
  | .arr .nil => true
  | _ => false

mutual
/-- Embeds `removeFields` (src/lib/vapi/sanitize.ts:52-72): recursively drop every
field whose key is in `flds`; arrays map over their items; primitives are
returned unchanged. -/
def removeFields (flds : List String) : Json → Json
  | .null => .null
  | .bool b => .bool b
  | .num n => .num n
  | .str s => .str s
  | .arr items => .arr (removeFieldsL flds items)
  | .obj fs => .obj (removeFieldsF flds fs)
/-- Item-wise part of `obj.map(item => removeFields(item, fieldsToRemove))`
(src/lib/vapi/sanitize.ts:54). -/
def removeFieldsL (flds : List String) : JsonList → JsonList
  | .nil => .nil
  | .cons j tl => .cons (removeFields flds j) (removeFieldsL flds tl)
/-- Entry-wise part of the `Object.entries` loop
(src/lib/vapi/sanitize.ts:60-66). -/
def removeFieldsF (flds : List String) : JsonFields → JsonFields
  | .nil => .nil
  | .cons k v tl =>
    if flds.contains k then removeFieldsF flds tl
    else .cons k (removeFields flds v) (removeFieldsF flds tl)
end

mutual
/-- Embeds `removeEmptyFields` (src/lib/vapi/sanitize.ts:139-169). -/
def removeEmptyFields : Json → Json
  | .null => .null
  | .bool b => .bool b
  | .num n => .num n
  | .str s => .str s
  | .arr items => .arr (removeEmptyL items)
  | .obj fs => .obj (removeEmptyF fs)
/-- The array branch (src/lib/vapi/sanitize.ts:140-144): map, then filter
out null/undefined items.  Note: no empty-container check here. -/
def removeEmptyL : JsonList → JsonList
  | .nil => .nil
  | .cons j tl =>
    let cleaned := removeEmptyFields j
    if isNull cleaned then removeEmptyL tl
    else .cons cleaned (removeEmptyL tl)
/-- The object branch (src/lib/vapi/sanitize.ts:146-165): skip null values,
recursively clean, and additionally skip values that cleaned to an empty
object or empty array. -/
def removeEmptyF : JsonFields → JsonFields
  | .nil => .nil
  | .cons k v tl =>
    if isNull v then removeEmptyF tl
    else
      let cleaned := removeEmptyFields v
      if isNull cleaned then removeEmptyF tl
      else if isEmptyContainer cleaned then removeEmptyF tl
      else .cons k cleaned (removeEmptyF tl)
end

/-- JS property read `obj[key]` on an object literal. -/
def getField : JsonFields → String → Option Json
  | .nil, _ => none
  | .cons k v tl, key => if k = key then some v else getField tl key

/-- JS property write `obj[key] = v`: updates in place (keeping the key's
position) or appends a new key. -/
def setField : JsonFields → String → Json → JsonFields
  | .nil, key, v => .cons key v .nil
  | .cons k v0 tl, key, v =>
    if k = key then .cons k v tl else .cons k v0 (setField tl key v)

def strList : List String → JsonList
  | [] => .nil
  | s :: rest => .cons (.str s) (strList rest)

/-- The tool-id injection of `sanitizeAssistant`
(src/lib/vapi/sanitize.ts:95-105): if `model` is missing or null, install
the default `{provider: "openai", model: "gpt-4"}` first, then write
`model.toolIds`.  (A truthy non-object `model` would make the JS throw a
TypeError; that corner is modelled by the default branch here and is not
relied on by any theorem.) -/
def injectToolIds (j : Json) (toolIds : List String) : Json :=
  match j with
  | .obj fs =>
    match getField fs "model" with
    | some (.obj mfs) =>
      .obj (setField fs "model" (.obj (setField mfs "toolIds" (.arr (strList toolIds)))))
    | _ =>
      .obj (setField fs "model" (.obj (.cons "provider" (.str "openai")
        (.cons "model" (.str "gpt-4")
          (.cons "toolIds" (.arr (strList toolIds)) .nil)))))
  | _ => j

/-- Embeds `sanitizeTool` (src/lib/vapi/sanitize.ts:120-134); `deepClone` is the
identity on values. -/
def sanitizeTool (tool : Json) : Json :=
  removeEmptyFields (removeFields TOOL_READONLY_FIELDS tool)

/-- Embeds `sanitizeAssistant` (src/lib/vapi/sanitize.ts:82-112); the optional
`toolIds` parameter is modelled as a list, `[]` meaning absent (the JS
guard is `toolIds && toolIds.length > 0`). -/
def sanitizeAssistant (assistant : Json) (toolIds : List String) : Json :=
  let sanitized := removeFields ASSISTANT_READONLY_FIELDS assistant
  let sanitized := if toolIds.isEmpty then sanitized else injectToolIds sanitized toolIds
  removeEmptyFields sanitized

/-! ### Predicates used to state the sanitizer claims -/

mutual
/-- No key from `flds` occurs at any depth. -/
def noForbidden (flds : List String) : Json → Bool
  | .arr items => noForbiddenL flds items
  | .obj fs => noForbiddenF flds fs
  | _ => true
def noForbiddenL (flds : List String) : JsonList → Bool
  | .nil => true
  | .cons j tl => noForbidden flds j && noForbiddenL flds tl
def noForbiddenF (flds : List String) : JsonFields → Bool
  | .nil => true
  | .cons k v tl => !flds.contains k && noForbidden flds v && noForbiddenF flds tl
end

mutual
/-- Every object entry, at any depth, has a non-null, non-empty-container
value; every array item, at any depth, is non-null (array items may still
be empty containers — that is exactly what the code leaves behind). -/
def noEmpties : Json → Bool
  | .arr items => noEmptiesL items
  | .obj fs => noEmptiesF fs
  | _ => true
def noEmptiesL : JsonList → Bool
  | .nil => true
  | .cons j tl => !isNull j && noEmpties j && noEmptiesL tl
def noEmptiesF : JsonFields → Bool
  | .nil => true
  | .cons _ v tl => !isNull v && !isEmptyContainer v && noEmpties v && noEmptiesF tl
end

mutual
/-- A value that the empty-field cleanup leaves untouched: no nulls and no
empty containers anywhere (including the value itself). -/
def isClean : Json → Bool
  | .null => false
  | .bool _ => true
  | .num _ => true
  | .str _ => true
  | .arr .nil => false
  | .arr items => isCleanL items
  | .obj .nil => false
  | .obj fs => isCleanF fs
def isCleanL : JsonList → Bool
  | .nil => true
  | .cons j tl => isClean j && isCleanL tl
def isCleanF : JsonFields → Bool
  | .nil => true
  | .cons _ v tl => isClean v && isCleanF tl
end

/-- Membership of a key/value entry in an object's field list. -/
def fieldMem (k : String) (v : Json) : JsonFields → Prop
  | .nil => False
  | .cons k0 v0 tl => (k = k0 ∧ v = v0) ∨ fieldMem k v tl

/-- The field list of an object value (and `nil` on non-objects). -/
def fieldsOf : Json → JsonFields
  | .obj fs => fs
  | _ => .nil

/-! ### Sanitizer lemmas -/

mutual
theorem noForbidden_removeFields (flds : List String) :
    ∀ j, noForbidden flds (removeFields flds j) = true
  | .null => rfl
  | .bool _ => rfl
  | .num _ => rfl
  | .str _ => rfl
  | .arr items => by
    simp only [removeFields, noForbidden]
    exact noForbidden_removeFieldsL flds items
  | .obj fs => by
    simp only [removeFields, noForbidden]
    exact noForbidden_removeFieldsF flds fs
theorem noForbidden_removeFieldsL (flds : List String) :
    ∀ l, noForbiddenL flds (removeFieldsL flds l) = true
  | .nil => rfl
  | .cons j tl => by
    simp only [removeFieldsL, noForbiddenL, Bool.and_eq_true]
    exact ⟨noForbidden_removeFields flds j, noForbidden_removeFieldsL flds tl⟩
theorem noForbidden_removeFieldsF (flds : List String) :
    ∀ fs, noForbiddenF flds (removeFieldsF flds fs) = true
  | .nil => rfl
  | .cons k v tl => by
    by_cases hc : flds.contains k
    · simp only [removeFieldsF, hc, if_pos]
      exact noForbidden_removeFieldsF flds tl
    · simp only [removeFieldsF, hc, if_neg, noForbiddenF, Bool.and_eq_true,
        Bool.not_eq_true']
      exact ⟨⟨by simp [hc], noForbidden_removeFields flds v⟩,
        noForbidden_removeFieldsF flds tl⟩
end

mutual
theorem noForbidden_removeEmpty (flds : List String) :
    ∀ j, noForbidden flds j = true → noForbidden flds (removeEmptyFields j) = true
  | .null, _ => rfl
  | .bool _, _ => rfl
  | .num _, _ => rfl
  | .str _, _ => rfl
  | .arr items, h => by
    simp only [removeEmptyFields, noForbidden]
    exact noForbidden_removeEmptyL flds items (by simpa [noForbidden] using h)
  | .obj fs, h => by
    simp only [removeEmptyFields, noForbidden]
    exact noForbidden_removeEmptyF flds fs (by simpa [noForbidden] using h)
theorem noForbidden_removeEmptyL (flds : List String) :
    ∀ l, noForbiddenL flds l = true → noForbiddenL flds (removeEmptyL l) = true
  | .nil, _ => rfl
  | .cons j tl, h => by
    have h1 : noForbidden flds j = true := by
      simp only [noForbiddenL, Bool.and_eq_true] at h; exact h.1
    have h2 : noForbiddenL flds tl = true := by
      simp only [noForbiddenL, Bool.and_eq_true] at h; exact h.2
    simp only [removeEmptyL]
    by_cases hn : isNull (removeEmptyFields j) = true
    · simp only [hn, if_pos]
      exact noForbidden_removeEmptyL flds tl h2
    · simp only [hn, if_neg, noForbiddenL, Bool.and_eq_true]
      exact ⟨noForbidden_removeEmpty flds j h1, noForbidden_removeEmptyL flds tl h2⟩
theorem noForbidden_removeEmptyF (flds : List String) :
    ∀ fs, noForbiddenF flds fs = true → noForbiddenF flds (removeEmptyF fs) = true
  | .nil, _ => rfl
  | .cons k v tl, h => by
    have h0 : flds.contains k = false := by
      simp only [noForbiddenF, Bool.and_eq_true, Bool.not_eq_true'] at h; exact h.1.1
    have h1 : noForbidden flds v = true := by
      simp only [noForbiddenF, Bool.and_eq_true] at h; exact h.1.2
    have h2 : noForbiddenF flds tl = true := by
      simp only [noForbiddenF, Bool.and_eq_true] at h; exact h.2
    simp only [removeEmptyF]
    by_cases hv : isNull v = true
    · simp only [hv, if_pos]
      exact noForbidden_removeEmptyF flds tl h2
    · simp only [hv, if_neg]
      by_cases hn : isNull (removeEmptyFields v) = true
      · simp only [hn, if_pos]
        exact noForbidden_removeEmptyF flds tl h2
      · simp only [hn, if_neg]
        by_cases he : isEmptyContainer (removeEmptyFields v) = true
        · simp only [he, if_pos]
          exact noForbidden_removeEmptyF flds tl h2
        · simp only [he, if_neg, noForbiddenF, Bool.and_eq_true, Bool.not_eq_true']
          exact ⟨⟨h0, noForbidden_removeEmpty flds v h1⟩,
            noForbidden_removeEmptyF flds tl h2⟩
end

mutual
theorem removeFields_of_noForbidden (flds : List String) :
    ∀ j, noForbidden flds j = true → removeFields flds j = j
  | .null, _ => rfl
  | .bool _, _ => rfl
  | .num _, _ => rfl
  | .str _, _ => rfl
  | .arr items, h => by
    simp only [removeFields]
    rw [removeFieldsL_of_noForbidden flds items (by simpa [noForbidden] using h)]
  | .obj fs, h => by
    simp only [removeFields]
    rw [removeFieldsF_of_noForbidden flds fs (by simpa [noForbidden] using h)]
theorem removeFieldsL_of_noForbidden (flds : List String) :
    ∀ l, noForbiddenL flds l = true → removeFieldsL flds l = l
  | .nil, _ => rfl
  | .cons j tl, h => by
    simp only [noForbiddenL, Bool.and_eq_true] at h
    simp only [removeFieldsL]
    rw [removeFields_of_noForbidden flds j h.1, removeFieldsL_of_noForbidden flds tl h.2]
theorem removeFieldsF_of_noForbidden (flds : List String) :
    ∀ fs, noForbiddenF flds fs = true → removeFieldsF flds fs = fs
  | .nil, _ => rfl
  | .cons k v tl, h => by
    simp only [noForbiddenF, Bool.and_eq_true, Bool.not_eq_true'] at h
    show (if flds.contains k = true then removeFieldsF flds tl
        else .cons k (removeFields flds v) (removeFieldsF flds tl)) =
      JsonFields.cons k v tl
    rw [if_neg (by simpa using h.1.1), removeFields_of_noForbidden flds v h.1.2,
      removeFieldsF_of_noForbidden flds tl h.2]
end

theorem isClean_not_null (j : Json) (h : isClean j = true) : isNull j = false := by
  cases j <;> first | rfl | exact absurd h (by simp [isClean])

theorem isClean_not_empty (j : Json) (h : isClean j = true) :
    isEmptyContainer j = false := by
  cases j with
  | arr items => cases items <;> simp_all [isClean, isEmptyContainer]
  | obj fs => cases fs <;> simp_all [isClean, isEmptyContainer]
  | null => exact absurd h (by simp [isClean])
  | bool b => rfl
  | num n => rfl
  | str s => rfl

mutual
theorem removeEmpty_of_isClean :
    ∀ j, isClean j = true → removeEmptyFields j = j
  | .null, h => absurd h (by simp [isClean])
  | .bool _, _ => rfl
  | .num _, _ => rfl
  | .str _, _ => rfl
  | .arr items, h => by
    simp only [removeEmptyFields]
    rw [removeEmptyL_of_isClean items ?_]
    cases items with
    | nil => exact absurd h (by simp [isClean])
    | cons j tl => simpa [isClean] using h
  | .obj fs, h => by
    simp only [removeEmptyFields]
    rw [removeEmptyF_of_isClean fs ?_]
    cases fs with
    | nil => exact absurd h (by simp [isClean])
    | cons k v tl => simpa [isClean] using h
theorem removeEmptyL_of_isClean :
    ∀ l, isCleanL l = true → removeEmptyL l = l
  | .nil, _ => rfl
  | .cons j tl, h => by
    simp only [isCleanL, Bool.and_eq_true] at h
    simp [removeEmptyL, removeEmpty_of_isClean j h.1, isClean_not_null j h.1,
      removeEmptyL_of_isClean tl h.2]
theorem removeEmptyF_of_isClean :
    ∀ fs, isCleanF fs = true → removeEmptyF fs = fs
  | .nil, _ => rfl
  | .cons k v tl, h => by
    simp only [isCleanF, Bool.and_eq_true] at h
    simp [removeEmptyF, removeEmpty_of_isClean v h.1, isClean_not_null v h.1,
      isClean_not_empty v h.1, removeEmptyF_of_isClean tl h.2]
end

mutual
theorem noEmpties_removeEmpty : ∀ j, noEmpties (removeEmptyFields j) = true
  | .null => rfl
  | .bool _ => rfl
  | .num _ => rfl
  | .str _ => rfl
  | .arr items => by
    simp only [removeEmptyFields, noEmpties]
    exact noEmpties_removeEmptyL items
  | .obj fs => by
    simp only [removeEmptyFields, noEmpties]
    exact noEmpties_removeEmptyF fs
theorem noEmpties_removeEmptyL : ∀ l, noEmptiesL (removeEmptyL l) = true
  | .nil => rfl
  | .cons j tl => by
    simp only [removeEmptyL]
    by_cases hn : isNull (removeEmptyFields j) = true
    · simp only [hn, if_pos]
      exact noEmpties_removeEmptyL tl
    · simp only [hn, if_neg, noEmptiesL, Bool.and_eq_true, Bool.not_eq_true']
      exact ⟨⟨trivial, noEmpties_removeEmpty j⟩, noEmpties_removeEmptyL tl⟩
theorem noEmpties_removeEmptyF : ∀ fs, noEmptiesF (removeEmptyF fs) = true
  | .nil => rfl
  | .cons k v tl => by
    simp only [removeEmptyF]
    by_cases hv : isNull v = true
    · simp only [hv, if_pos]
      exact noEmpties_removeEmptyF tl
    · simp only [hv, if_neg]
      by_cases hn : isNull (removeEmptyFields v) = true
      · simp only [hn, if_pos]
        exact noEmpties_removeEmptyF tl
      · simp only [hn, if_neg]
        by_cases he : isEmptyContainer (removeEmptyFields v) = true
        · simp only [he, if_pos]
          exact noEmpties_removeEmptyF tl
        · simp only [he, if_neg, noEmptiesF, Bool.and_eq_true, Bool.not_eq_true']
          exact ⟨⟨⟨Bool.eq_false_iff.mpr hn, trivial⟩,
            noEmpties_removeEmpty v⟩, noEmpties_removeEmptyF tl⟩
end

theorem fieldMem_removeEmptyF_tail (k : String) (v : Json) (k0 : String)
    (v0 : Json) (tl : JsonFields) (h : fieldMem k v (removeEmptyF tl)) :
    fieldMem k v (removeEmptyF (.cons k0 v0 tl)) := by
  show fieldMem k v (if isNull v0 = true then removeEmptyF tl
    else if isNull (removeEmptyFields v0) = true then removeEmptyF tl
    else if isEmptyContainer (removeEmptyFields v0) = true then removeEmptyF tl
    else .cons k0 (removeEmptyFields v0) (removeEmptyF tl))
  split_ifs <;> first | exact h | exact Or.inr h

theorem fieldMem_sanitize (flds : List String) :
    ∀ (fs : JsonFields) (k : String) (v : Json), fieldMem k v fs →
    flds.contains k = false → noForbidden flds v = true → isClean v = true →
    fieldMem k v (removeEmptyF (removeFieldsF flds fs))
  | .nil, k, v, hm, _, _, _ => absurd hm (by simp [fieldMem])
  | .cons k0 v0 tl, k, v, hm, hk, hnf, hcl => by
    simp only [fieldMem] at hm
    rcases hm with ⟨hk0, hv0⟩ | hm
    · subst hk0; subst hv0
      have step1 : removeFieldsF flds (.cons k v tl) =
          .cons k (removeFields flds v) (removeFieldsF flds tl) := by
        show (if flds.contains k = true then removeFieldsF flds tl
          else .cons k (removeFields flds v) (removeFieldsF flds tl)) = _
        rw [if_neg (by simpa using hk)]
      rw [step1, removeFields_of_noForbidden flds v hnf]
      show fieldMem k v (if isNull v = true then removeEmptyF (removeFieldsF flds tl)
        else if isNull (removeEmptyFields v) = true then removeEmptyF (removeFieldsF flds tl)
        else if isEmptyContainer (removeEmptyFields v) = true then
          removeEmptyF (removeFieldsF flds tl)
        else .cons k (removeEmptyFields v) (removeEmptyF (removeFieldsF flds tl)))
      rw [removeEmpty_of_isClean v hcl,
        if_neg (by simp [isClean_not_null v hcl]),
        if_neg (by simp [isClean_not_null v hcl]),
        if_neg (by simp [isClean_not_empty v hcl])]
      exact Or.inl ⟨rfl, rfl⟩
    · have ihm := fieldMem_sanitize flds tl k v hm hk hnf hcl
      by_cases hc : flds.contains k0 = true
      · have step : removeFieldsF flds (.cons k0 v0 tl) = removeFieldsF flds tl := by
          show (if flds.contains k0 = true then removeFieldsF flds tl
            else .cons k0 (removeFields flds v0) (removeFieldsF flds tl)) = _
          rw [if_pos hc]
        rw [step]
        exact ihm
      · have step : removeFieldsF flds (.cons k0 v0 tl) =
            .cons k0 (removeFields flds v0) (removeFieldsF flds tl) := by
          show (if flds.contains k0 = true then removeFieldsF flds tl
            else .cons k0 (removeFields flds v0) (removeFieldsF flds tl)) = _
          rw [if_neg hc]
        rw [step]
        exact fieldMem_removeEmptyF_tail k v k0 (removeFields flds v0) _ ihm

/-! ### Claim theorems for lib/vapi/sanitize.ts -/

/-- C7 (amended): the sanitize operation removes every read-only field name
at every depth, for all inputs; and a non-forbidden top-level field is
preserved with a deep-equal value provided its value contains no forbidden
name, no null and no empty container (the counterexample
`sanitizeTool_drops_fields_cex` shows that null-valued fields, fields whose
contents are entirely forbidden, and values with nested forbidden fields are
not preserved verbatim, which is what the forbidden-name/cleanliness
hypotheses account for). -/
theorem sanitize_removes_forbidden :
    (∀ j, noForbidden TOOL_READONLY_FIELDS (sanitizeTool j) = true) ∧
    (∀ j, noForbidden ASSISTANT_READONLY_FIELDS (sanitizeAssistant j []) = true) ∧
    (∀ fs k v, fieldMem k v fs → TOOL_READONLY_FIELDS.contains k = false →
      noForbidden TOOL_READONLY_FIELDS v = true → isClean v = true →
      fieldMem k v (fieldsOf (sanitizeTool (.obj fs)))) ∧
    (∀ fs k v, fieldMem k v fs → ASSISTANT_READONLY_FIELDS.contains k = false →
      noForbidden ASSISTANT_READONLY_FIELDS v = true → isClean v = true →
      fieldMem k v (fieldsOf (sanitizeAssistant (.obj fs) []))) := by
  refine ⟨?_, ?_, ?_, ?_⟩
  · intro j
    exact noForbidden_removeEmpty _ _ (noForbidden_removeFields _ j)
  · intro j
    simp only [sanitizeAssistant, List.isEmpty_nil, if_pos]
    exact noForbidden_removeEmpty _ _ (noForbidden_removeFields _ j)
  · intro fs k v hm hk hnf hcl
    simpa [sanitizeTool, removeFields, removeEmptyFields, fieldsOf] using
      fieldMem_sanitize _ fs k v hm hk hnf hcl
  · intro fs k v hm hk hnf hcl
    simpa [sanitizeAssistant, removeFields, removeEmptyFields, fieldsOf] using
      fieldMem_sanitize _ fs k v hm hk hnf hcl

/-- Witness for C7 (amended) at a concrete input. -/
theorem sanitize_removes_forbidden_witness :
    noForbidden TOOL_READONLY_FIELDS
      (sanitizeTool (.obj (.cons "id" (.str "T1")
        (.cons "type" (.str "function") .nil)))) = true ∧
    fieldMem "type" (.str "function")
      (fieldsOf (sanitizeTool (.obj (.cons "id" (.str "T1")
        (.cons "type" (.str "function") .nil))))) :=
  ⟨sanitize_removes_forbidden.1 _,
    sanitize_removes_forbidden.2.2.1 _ "type" (.str "function")
      (by simp [fieldMem]) (by decide) rfl rfl⟩

/-- The concrete tool object used to refute the literal C7: it carries every
tool read-only field at the top level and (inside `nested`) one level deep,
plus three non-forbidden fields `type`, `extra` (null) and `server` (whose
value contains a nested read-only `id`). -/
def cexNestedRO : JsonFields :=
  .cons "id" (.str "x") (.cons "_id" (.str "x") (.cons "orgId" (.str "o")
    (.cons "createdAt" (.str "c") (.cons "updatedAt" (.str "u")
      (.cons "owner" (.str "w") (.cons "lastModifiedBy" (.str "m")
        (.cons "_rev" (.str "r") .nil)))))))

def cexToolFields : JsonFields :=
  .cons "type" (.str "function") (.cons "extra" .null
    (.cons "server" (.obj (.cons "id" (.str "S1")
        (.cons "url" (.str "https://example.test") .nil)))
      (.cons "id" (.str "T1") (.cons "_id" (.str "T1") (.cons "orgId" (.str "o")
        (.cons "createdAt" (.str "c") (.cons "updatedAt" (.str "u")
          (.cons "owner" (.str "w") (.cons "lastModifiedBy" (.str "m")
            (.cons "_rev" (.str "r")
              (.cons "nested" (.obj cexNestedRO) .nil)))))))))))

/-- C7 counterexample: on `cexToolFields` (which contains every read-only
tool field at top level and one level deep), the non-forbidden fields
`extra` and `nested` are present in the input but absent from the sanitized
output, and `server` survives only with its nested read-only `id` removed —
so "every non-forbidden field present in the input is present in the output
with a deep-equal value" is false as stated. -/
theorem sanitizeTool_drops_fields_cex :
    TOOL_READONLY_FIELDS.all (fun f => (getField cexToolFields f).isSome) = true ∧
    TOOL_READONLY_FIELDS.all (fun f => (getField cexNestedRO f).isSome) = true ∧
    fieldMem "extra" .null cexToolFields ∧
    fieldMem "nested" (.obj cexNestedRO) cexToolFields ∧
    TOOL_READONLY_FIELDS.contains "extra" = false ∧
    TOOL_READONLY_FIELDS.contains "nested" = false ∧
    sanitizeTool (.obj cexToolFields) =
      .obj (.cons "type" (.str "function")
        (.cons "server" (.obj (.cons "url" (.str "https://example.test") .nil)) .nil)) ∧
    getField (fieldsOf (sanitizeTool (.obj cexToolFields))) "extra" = none ∧
    getField (fieldsOf (sanitizeTool (.obj cexToolFields))) "nested" = none ∧
    getField (fieldsOf (sanitizeTool (.obj cexToolFields))) "server" ≠
      getField cexToolFields "server" := by
  refine ⟨rfl, rfl, ?_, ?_, rfl, rfl, rfl, rfl, rfl, ?_⟩
  · simp [cexToolFields, fieldMem]
  · simp [cexToolFields, fieldMem]
  · intro h
    rw [show getField (fieldsOf (sanitizeTool (.obj cexToolFields))) "server" =
        some (Json.obj (.cons "url" (.str "https://example.test") .nil)) from rfl,
      show getField cexToolFields "server" =
        some (Json.obj (.cons "id" (.str "S1")
          (.cons "url" (.str "https://example.test") .nil))) from rfl] at h
    injection h with h
    injection h with h
    injection h with h1 h2
    exact absurd h1 (by decide)

/-- C8 (amended): after cleanup no object entry anywhere in the result has a
null or empty-container value and no array item anywhere is null — empty
mappings and sequences are omitted from their parent when that parent is a
mapping; a parent sequence only filters null items (the counterexample
`removeEmpty_keeps_empty_in_array_cex` shows an empty object retained as an
array item, so the literal "whether that parent is a mapping or a sequence"
is false). -/
theorem removeEmpty_prunes_object_entries (j : Json) :
    noEmpties (removeEmptyFields j) = true :=
  noEmpties_removeEmpty j

/-- C8 counterexample: sanitizing a tool whose array item becomes `{}` after
forbidden-field removal keeps that empty object inside the array — an empty
mapping whose parent is a sequence is NOT omitted. -/
theorem removeEmpty_keeps_empty_in_array_cex :
    sanitizeTool (.obj (.cons "type" (.str "function")
      (.cons "a" (.arr (.cons (.obj (.cons "id" (.str "x") .nil)) .nil)) .nil))) =
    .obj (.cons "type" (.str "function")
      (.cons "a" (.arr (.cons (.obj .nil) .nil)) .nil)) ∧
    getField (fieldsOf (sanitizeTool (.obj (.cons "type" (.str "function")
      (.cons "a" (.arr (.cons (.obj (.cons "id" (.str "x") .nil)) .nil)) .nil))))) "a" =
      some (.arr (.cons (.obj .nil) .nil)) :=
  ⟨rfl, rfl⟩

/-! ## lib/vapi/client.ts (src/unnamed/part_008, lines 118-341)

The retry loop of `VapiClient.fetchWithRetry` is embedded over an oracle
`Nat → FetchOutcome` giving the outcome of the `fetch` call made on each
attempt index. -/

/-- Embeds `MAX_RETRIES` (src/unnamed/part_008:129). -/
def MAX_RETRIES : Nat := 3

/-- Embeds `INITIAL_RETRY_DELAY` in milliseconds (src/unnamed/part_008:130). -/
def INITIAL_RETRY_DELAY : Nat := 1000

/-- Outcome of one `fetch` call: a response carrying an HTTP status, or a
network-level failure (the promise rejects, there is no response). -/
inductive FetchOutcome where
  | resp (status : Nat)
  | netErr
deriving DecidableEq

/-- What `fetchWithRetry` does in the end: return a `Response` (carrying
its status — the caller `request` then throws a `VapiError` with that
status if it is not ok), or rethrow the last network error. -/
inductive FetchResult where
  | returned (status : Nat)
  | threwNet
deriving DecidableEq

/-- The for-loop of `fetchWithRetry` (src/unnamed/part_008:162-189),
structured on `fuel` = `retries - attempt` remaining iterations.  Returns
the result together with the list of backoff delays (ms) actually slept.
The branches mirror the source exactly: a 4xx other than 429 is returned
at once; an ok response, or any response on the last attempt, is returned;
otherwise the loop sleeps `INITIAL_RETRY_DELAY * 2 ^ attempt` and retries;
a network error sleeps and retries unless this was the last attempt, in
which case the loop exits and line 191 rethrows the stored `lastError`. -/
def fetchLoop (oracle : Nat → FetchOutcome) (retries : Nat) :
    Nat → Nat → FetchResult × List Nat
  | 0, _ => (.threwNet, [])
  | fuel + 1, attempt =>
    match oracle attempt with
    | .resp status =>
      if 400 ≤ status ∧ status < 500 ∧ status ≠ 429 then (.returned status, [])
      else if (200 ≤ status ∧ status < 300) ∨ attempt = retries - 1 then
        (.returned status, [])
      else
        let delay := INITIAL_RETRY_DELAY * 2 ^ attempt
        let r := fetchLoop oracle retries fuel (attempt + 1)
        (r.1, delay :: r.2)
    | .netErr =>
      if attempt < retries - 1 then
        let delay := INITIAL_RETRY_DELAY * 2 ^ attempt
        let r := fetchLoop oracle retries fuel (attempt + 1)
        (r.1, delay :: r.2)
      else (.threwNet, [])

/-- Embeds `fetchWithRetry` with its default `retries = MAX_RETRIES`
(src/unnamed/part_008:155-192). -/
def fetchWithRetry (oracle : Nat → FetchOutcome) : FetchResult × List Nat :=
  fetchLoop oracle MAX_RETRIES MAX_RETRIES 0

/-- The error surface of the `request` wrapper (src/unnamed/part_008:224-228):
a non-2xx returned response is thrown as a `VapiError` carrying its HTTP
status (`.error (some status)`); a network rethrow from `fetchWithRetry`
propagates without a status (`.error none`). -/
def request (oracle : Nat → FetchOutcome) : Except (Option Nat) Nat :=
  match (fetchWithRetry oracle).1 with
  | .returned status =>
    if 200 ≤ status ∧ status < 300 then .ok status else .error (some status)
  | .threwNet => .error none

/-- The retry triggers named by the spec: a 5xx status, a 429, or a
network-level failure. -/
def RetryTrigger : FetchOutcome → Prop
  | .resp s => (500 ≤ s ∧ s < 600) ∨ s = 429
  | .netErr => True

theorem fetchLoop_retry_step (oracle : Nat → FetchOutcome) (fuel attempt : Nat)
    (hlt : attempt < MAX_RETRIES - 1) (h : RetryTrigger (oracle attempt)) :
    fetchLoop oracle MAX_RETRIES (fuel + 1) attempt =
      ((fetchLoop oracle MAX_RETRIES fuel (attempt + 1)).1,
        (INITIAL_RETRY_DELAY * 2 ^ attempt) ::
          (fetchLoop oracle MAX_RETRIES fuel (attempt + 1)).2) := by
  cases ho : oracle attempt with
  | netErr =>
    simp only [fetchLoop, ho]
    rw [if_pos hlt]
  | resp s =>
    rw [ho] at h
    simp only [RetryTrigger] at h
    simp only [fetchLoop, ho]
    rw [if_neg (by rintro ⟨h1, h2, h3⟩; rcases h with h | h; omega; exact h3 h),
      if_neg (by rintro (⟨h1, h2⟩ | he); rcases h with h | h; omega; omega; omega)]

theorem fetchLoop_last (oracle : Nat → FetchOutcome) (fuel : Nat) :
    fetchLoop oracle MAX_RETRIES (fuel + 1) (MAX_RETRIES - 1) =
      ((match oracle (MAX_RETRIES - 1) with
        | .resp s => .returned s
        | .netErr => .threwNet), []) := by
  cases ho : oracle (MAX_RETRIES - 1) with
  | netErr =>
    simp only [fetchLoop, ho]
    rw [if_neg (by omega)]
  | resp s =>
    simp only [fetchLoop, ho]
    by_cases h4 : 400 ≤ s ∧ s < 500 ∧ s ≠ 429
    · rw [if_pos h4]
    · rw [if_neg h4, if_pos (Or.inr trivial)]

/-- C9: the retry policy of `VapiClient.fetchWithRetry`.  A 4xx response
other than 429 is returned immediately from any attempt, with no backoff
sleeps and no dependence on later attempts, and `request` surfaces it as an
error with that status.  A 5xx, 429 or network failure on the first two
attempts leads to backoff sleeps of 1000 ms then 2000 ms (1 s doubling) and
a third, final attempt whose outcome decides the run — a total bound of 3
attempts; when all three attempts are exhausted, `request` surfaces the
last observed error: the final status when a response was received,
statusless when the final failure was network-level. -/
theorem fetchWithRetry_policy :
    (∀ (oracle : Nat → FetchOutcome) (fuel attempt s : Nat),
      oracle attempt = .resp s → 400 ≤ s → s < 500 → s ≠ 429 →
      fetchLoop oracle MAX_RETRIES (fuel + 1) attempt = (.returned s, [])) ∧
    (∀ oracle : Nat → FetchOutcome, RetryTrigger (oracle 0) → RetryTrigger (oracle 1) →
      fetchWithRetry oracle =
        ((match oracle 2 with
          | .resp s => .returned s
          | .netErr => .threwNet), [1000, 2000])) ∧
    (∀ (oracle : Nat → FetchOutcome) (s : Nat),
      oracle 0 = .resp s → 400 ≤ s → s < 500 → s ≠ 429 →
      request oracle = .error (some s)) ∧
    (∀ (oracle : Nat → FetchOutcome) (s : Nat),
      RetryTrigger (oracle 0) → RetryTrigger (oracle 1) →
      oracle 2 = .resp s → ¬(200 ≤ s ∧ s < 300) →
      request oracle = .error (some s)) ∧
    (∀ oracle : Nat → FetchOutcome,
      RetryTrigger (oracle 0) → RetryTrigger (oracle 1) →
      oracle 2 = .netErr → request oracle = .error none) := by
  have himm : ∀ (oracle : Nat → FetchOutcome) (fuel attempt s : Nat),
      oracle attempt = .resp s → 400 ≤ s → s < 500 → s ≠ 429 →
      fetchLoop oracle MAX_RETRIES (fuel + 1) attempt = (.returned s, []) := by
    intro oracle fuel attempt s ho h1 h2 h3
    simp only [fetchLoop, ho]
    rw [if_pos ⟨h1, h2, h3⟩]
  have hrun : ∀ oracle : Nat → FetchOutcome,
      RetryTrigger (oracle 0) → RetryTrigger (oracle 1) →
      fetchWithRetry oracle =
        ((match oracle 2 with
          | .resp s => .returned s
          | .netErr => .threwNet), [1000, 2000]) := by
    intro oracle h0 h1
    have e0 := fetchLoop_retry_step oracle 2 0 (by simp [MAX_RETRIES]) h0
    have e1 := fetchLoop_retry_step oracle 1 1 (by simp [MAX_RETRIES]) h1
    have e2 := fetchLoop_last oracle 0
    simp only [MAX_RETRIES, INITIAL_RETRY_DELAY] at e0 e1 e2
    norm_num at e0 e1 e2
    show fetchLoop oracle MAX_RETRIES MAX_RETRIES 0 = _
    simp only [MAX_RETRIES]
    rw [e0, e1, e2]
  refine ⟨himm, hrun, ?_, ?_, ?_⟩
  · intro oracle s ho h1 h2 h3
    unfold request
    show (match (fetchLoop oracle MAX_RETRIES MAX_RETRIES 0).1 with
      | FetchResult.returned status =>
        if 200 ≤ status ∧ status < 300 then Except.ok status
        else Except.error (some status)
      | FetchResult.threwNet => Except.error none) = Except.error (some s)
    have : fetchLoop oracle MAX_RETRIES MAX_RETRIES 0 = (.returned s, []) :=
      himm oracle 2 0 s ho h1 h2 h3
    rw [this]
    simp only []
    rw [if_neg (by omega)]
  · intro oracle s h0 h1 ho hnotok
    unfold request
    rw [hrun oracle h0 h1, ho]
    simp only []
    rw [if_neg hnotok]
  · intro oracle h0 h1 ho
    unfold request
    rw [hrun oracle h0 h1, ho]

/-- Witness for C9 at a concrete oracle: a 500, then a network error, then
a 502 — two backoff sleeps of 1000 ms and 2000 ms, and the final 502 is the
error surfaced to the caller. -/
theorem fetchWithRetry_policy_witness :
    fetchWithRetry
      (fun n => if n = 0 then .resp 500 else if n = 1 then .netErr else .resp 502) =
      (.returned 502, [1000, 2000]) ∧
    request
      (fun n => if n = 0 then .resp 500 else if n = 1 then .netErr else .resp 502) =
      .error (some 502) ∧
    fetchLoop (fun _ => .resp 404) MAX_RETRIES MAX_RETRIES 0 = (.returned 404, []) :=
  ⟨by
    rw [fetchWithRetry_policy.2.1 _ (by simp [RetryTrigger]) (by simp [RetryTrigger])]
    rfl,
   fetchWithRetry_policy.2.2.2.1 _ 502 (by simp [RetryTrigger]) (by simp [RetryTrigger])
     (by simp) (by omega),
   fetchWithRetry_policy.1 (fun _ => .resp 404) 2 0 404 rfl (by omega) (by omega)
     (by omega)⟩

/-! ## app/api/vapi/clone/route.ts (src/unnamed/part_023)

The clone orchestrator. Platform resources are modelled by their id and
optional name — the only parts the reconciliation logic reads.  Network
effects are supplied as data: the user's existing resources per kind (the
`listTools`/`listAssistants` results), the outcome of each kind's create
call (`.error status` models a thrown `VapiError`), and a delete-failure
oracle.  A create appends a resource whose name is the template's name —
`createTool(sanitizeTool(templateTool))` submits the template's `name`
field verbatim (the name key is not read-only and the template names in
play are non-empty strings, so sanitization keeps them) and the platform
assigns the fresh id. -/

/-- A platform resource as the orchestrator sees it. Existing resources
always carry their platform id (`tool.id!` in the source); `name` is
optional exactly as in the `Tool`/`Assistant` types. -/
structure Resource where
  id : String
  name : Option String
deriving DecidableEq

/-- The character class `[\d.]+` of the route's own suffix regex
(src/unnamed/part_023:76): a non-empty run of digits and dots.  Note that
this is coarser than lib/version.ts's `\d+(?:\.\d+)*`. -/
def routeSuffixChars : List Char → Bool
  | [] => false
  | l => l.all fun c => c.isDigit || c = '.'

/-- Embeds `name.replace(/_v[\d.]+$/, '')` (src/unnamed/part_023:76,79,145,148):
drop the (unique, hence leftmost) `_v` whose whole remainder is made of
digits and dots. -/
def stripRouteList : List Char → List Char
  | c :: r :: tail =>
    if c = '_' ∧ r = 'v' ∧ routeSuffixChars tail = true then []
    else c :: stripRouteList (r :: tail)
  | l => l

def stripRouteSuffix (name : String) : String :=
  ⟨stripRouteList name.toList⟩

/-- The candidate filter (src/unnamed/part_023:78-81, 147-150): an existing
resource matches when its base name equals the template's base name; a
resource without a name never matches (in JS, `undefined === string` is
false). -/
def matchesBase (tBase : String) (r : Resource) : Bool :=
  match r.name with
  | some n => stripRouteSuffix n == tBase
  | none => false

/-- Embeds `parseVersionFromName(r.name || '') || '0'`
(src/unnamed/part_023:88,91,157,160). -/
def verOf (r : Resource) : String :=
  (parseVersionFromName (r.name.getD "")).getD "0"

/-- The highest-version scan (src/unnamed/part_023:87-96, 156-165): start
from the first matching resource and switch whenever a strictly greater
version is seen (`compareVersions(version, highestVersion) > 0`). -/
def findHighest : Resource × String → List Resource → Resource × String
  | cur, [] => cur
  | cur, r :: rest =>
    findHighest (if 0 < compareVersions (verOf r) cur.2 then (r, verOf r) else cur) rest

/-- The delete loop of the upgrade branch (src/unnamed/part_023:113-122,
182-191).  Returns the recorded actions, in order, together with the ids
whose platform delete succeeded; a failing delete is caught individually
and recorded as `delete-failed-<kind>:<id>`. -/
def deleteLoop (kind : String) (deleteFails : String → Bool) :
    List Resource → List String × List String
  | [] => ([], [])
  | r :: rest =>
    let res := deleteLoop kind deleteFails rest
    if deleteFails r.id then
      (("delete-failed-" ++ kind ++ ":" ++ r.id) :: res.1, res.2)
    else
      (("deleted-old-" ++ kind ++ ":" ++ r.id) :: res.1, r.id :: res.2)

/-- The per-kind outcome: the id used downstream, the actions recorded for
this kind, and the user's resources of this kind after the run. -/
structure KindOutcome where
  finalId : String
  actions : List String
  resources : List Resource
deriving DecidableEq

/-- One resource-kind reconciliation.  The source writes this twice, once
inline for tools (src/unnamed/part_023:74-141) and once for assistants
(143-210); the two blocks are textually parallel and are embedded once,
parametrised by the action-label `kind` and by the template's name
(`templateTool.name ?? ''` resp. `templateAssistant.name`).  `createResult`
is the platform's answer to the (single possible) create call of the run.
The resulting resource list reflects the platform state: a create appends
the new resource, each delete that succeeded removes its id. -/
def reconcileKind (kind : String) (templateName : String)
    (existing : List Resource) (createResult : Except Nat String)
    (deleteFails : String → Bool) : Except Nat KindOutcome :=
  let templateVersion := (parseVersionFromName templateName).getD "0"
  let baseName := stripRouteSuffix templateName
  let matching := existing.filter (matchesBase baseName)
  match matching with
  | [] =>
    match createResult with
    | .error st => .error st
    | .ok newId =>
      .ok ⟨newId, [("created-" ++ kind ++ ":" ++ newId)],
        existing ++ [⟨newId, some templateName⟩]⟩
  | first :: rest =>
    let hi := findHighest (first, verOf first) (first :: rest)
    let comparison := compareVersions templateVersion hi.2
    if 0 < comparison then
      match createResult with
      | .error st => .error st
      | .ok newId =>
        let del := deleteLoop kind deleteFails (first :: rest)
        .ok ⟨newId, ("created-" ++ kind ++ ":" ++ newId) :: del.1,
          (existing.filter fun r => !del.2.contains r.id) ++ [⟨newId, some templateName⟩]⟩
    else if comparison = 0 then
      .ok ⟨hi.1.id, [("reused-" ++ kind ++ ":" ++ hi.1.id)], existing⟩
    else
      .ok ⟨hi.1.id, [("skipped-" ++ kind ++ "-newer-exists:" ++ hi.1.id)], existing⟩

/-- Everything the orchestration run reads from the outside world. -/
structure CloneEnv where
  existingTools : List Resource
  existingAssistants : List Resource
  createTool : Except Nat String
  createAssistant : Except Nat String
  deleteToolFails : String → Bool
  deleteAssistantFails : String → Bool

/-- The success response `{assistantId, toolId, actions}`
(src/unnamed/part_023:218-224), extended with the resulting platform state
per kind. -/
structure CloneOk where
  assistantId : String
  toolId : String
  actions : List String
  toolsAfter : List Resource
  assistantsAfter : List Resource
deriving DecidableEq

/-- The error-response surface: HTTP status, machine-readable code, and the
`actions` list if and only if the response body carries one. -/
structure CloneErr where
  httpStatus : Nat
  code : String
  includedActions : Option (List String)
deriving DecidableEq

/-- The catch block (src/unnamed/part_023:226-261): 401/403 → 409
`INSUFFICIENT_PERMISSIONS`; 400 → 400 `VAPI_BAD_REQUEST`; everything else
→ 500 `INTERNAL_ERROR`.  Only the 500 response includes the accumulated
`actions` (line 257); the 400 and 409 bodies do not. -/
def classifyError (status : Nat) (actions : List String) : CloneErr :=
  if status = 403 ∨ status = 401 then ⟨409, "INSUFFICIENT_PERMISSIONS", none⟩
  else if status = 400 then ⟨400, "VAPI_BAD_REQUEST", none⟩
  else ⟨500, "INTERNAL_ERROR", some actions⟩

/-- The clone orchestration `POST` (src/unnamed/part_023:29-262), from the
point where the templates are loaded (the userId/API-key/database steps
before line 57 are outside the reconciliation and succeed in the runs
modelled here).  STEP 1 reconciles the tool, STEP 2 the assistant; the
`actions` array holds the tool actions followed by the assistant actions;
an uncaught `VapiError` lands in the catch block with the actions recorded
so far (empty when the tool phase itself threw, since its create throws
before its `created-tool` push). -/
def POST (toolTemplateName assistantTemplateName : String) (env : CloneEnv) :
    Except CloneErr CloneOk :=
  match reconcileKind "tool" toolTemplateName env.existingTools
      env.createTool env.deleteToolFails with
  | .error st => .error (classifyError st [])
  | .ok t =>
    match reconcileKind "assistant" assistantTemplateName env.existingAssistants
        env.createAssistant env.deleteAssistantFails with
    | .error st => .error (classifyError st t.actions)
    | .ok a =>
      .ok ⟨a.finalId, t.finalId, t.actions ++ a.actions, t.resources, a.resources⟩

/-! ### Branch equations for the reconciliation -/

theorem reconcileKind_empty (kind templateName : String) (existing : List Resource)
    (createResult : Except Nat String) (deleteFails : String → Bool)
    (h : existing.filter (matchesBase (stripRouteSuffix templateName)) = []) :
    reconcileKind kind templateName existing createResult deleteFails =
      match createResult with
      | .error st => .error st
      | .ok newId =>
        .ok ⟨newId, [("created-" ++ kind ++ ":" ++ newId)],
          existing ++ [⟨newId, some templateName⟩]⟩ := by
  simp only [reconcileKind, h]

theorem reconcileKind_cons (kind templateName : String) (existing : List Resource)
    (createResult : Except Nat String) (deleteFails : String → Bool)
    (first : Resource) (rest : List Resource)
    (h : existing.filter (matchesBase (stripRouteSuffix templateName)) = first :: rest) :
    reconcileKind kind templateName existing createResult deleteFails =
      (if 0 < compareVersions ((parseVersionFromName templateName).getD "0")
          (findHighest (first, verOf first) (first :: rest)).2 then
        match createResult with
        | .error st => .error st
        | .ok newId =>
          .ok ⟨newId, ("created-" ++ kind ++ ":" ++ newId) ::
              (deleteLoop kind deleteFails (first :: rest)).1,
            (existing.filter fun r =>
              !(deleteLoop kind deleteFails (first :: rest)).2.contains r.id) ++
            [⟨newId, some templateName⟩]⟩
      else if compareVersions ((parseVersionFromName templateName).getD "0")
          (findHighest (first, verOf first) (first :: rest)).2 = 0 then
        .ok ⟨(findHighest (first, verOf first) (first :: rest)).1.id,
          [("reused-" ++ kind ++ ":" ++
            (findHighest (first, verOf first) (first :: rest)).1.id)], existing⟩
      else
        .ok ⟨(findHighest (first, verOf first) (first :: rest)).1.id,
          [("skipped-" ++ kind ++ "-newer-exists:" ++
            (findHighest (first, verOf first) (first :: rest)).1.id)], existing⟩) := by
  simp only [reconcileKind, h]

theorem deleteLoop_actions (kind : String) (deleteFails : String → Bool) :
    ∀ l : List Resource, (deleteLoop kind deleteFails l).1 =
      l.map fun r =>
        if deleteFails r.id then "delete-failed-" ++ kind ++ ":" ++ r.id
        else "deleted-old-" ++ kind ++ ":" ++ r.id
  | [] => rfl
  | r :: rest => by
    simp only [deleteLoop, List.map]
    by_cases hf : deleteFails r.id <;>
      simp [hf, deleteLoop_actions kind deleteFails rest]

/-! ### Claim theorems C1 and C3 -/

/-- C1: when the candidate set is non-empty and the template's version is
strictly greater than the highest candidate version, the run (for any
pattern of delete failures) succeeds, records exactly one
`created-<kind>:<newId>` action followed by one delete action per candidate
— `deleted-old` on success, `delete-failed` on an individually caught
failure — and the id returned for the kind is the newly created one. -/
theorem reconcile_upgrade_spec (kind templateName : String)
    (existing : List Resource) (newId : String) (deleteFails : String → Bool)
    (first : Resource) (rest : List Resource)
    (hmatch : existing.filter (matchesBase (stripRouteSuffix templateName)) =
      first :: rest)
    (hgt : 0 < compareVersions ((parseVersionFromName templateName).getD "0")
      (findHighest (first, verOf first) (first :: rest)).2) :
    reconcileKind kind templateName existing (.ok newId) deleteFails =
      .ok ⟨newId,
        ("created-" ++ kind ++ ":" ++ newId) ::
          ((first :: rest).map fun r =>
            if deleteFails r.id then "delete-failed-" ++ kind ++ ":" ++ r.id
            else "deleted-old-" ++ kind ++ ":" ++ r.id),
        (existing.filter fun r =>
          !(deleteLoop kind deleteFails (first :: rest)).2.contains r.id) ++
        [⟨newId, some templateName⟩]⟩ := by
  rw [reconcileKind_cons kind templateName existing (.ok newId) deleteFails
    first rest hmatch, if_pos hgt]
  rw [deleteLoop_actions]

/-- Witness for C1: template `SendData_v2`, one existing candidate
`SendData_v1` with id `T1` whose delete fails — the run still succeeds,
with `created-tool:<newId>` followed by `delete-failed-tool:T1`, returns
the new id, and the stale `T1` remains on the platform. -/
theorem reconcile_upgrade_spec_witness :
    reconcileKind "tool" "SendData_v2" [⟨"T1", some "SendData_v1"⟩] (.ok "NEW")
      (fun i => i == "T1") =
      .ok ⟨"NEW", ["created-tool:NEW", "delete-failed-tool:T1"],
        [⟨"T1", some "SendData_v1"⟩, ⟨"NEW", some "SendData_v2"⟩]⟩ := by
  rw [reconcile_upgrade_spec "tool" "SendData_v2" [⟨"T1", some "SendData_v1"⟩]
    "NEW" (fun i => i == "T1") ⟨"T1", some "SendData_v1"⟩ [] (by decide) (by decide)]
  rfl

/-- C3: when the candidate set is non-empty and the highest candidate
version is strictly greater than the template's version, the run performs
no create (the conclusion does not depend on `createResult`) and no delete,
leaves the user's resources of the kind unchanged, records exactly one
`skipped-<kind>-newer-exists:<id>` action, and returns the highest
candidate's id. -/
theorem reconcile_skip_spec (kind templateName : String)
    (existing : List Resource) (createResult : Except Nat String)
    (deleteFails : String → Bool) (first : Resource) (rest : List Resource)
    (hmatch : existing.filter (matchesBase (stripRouteSuffix templateName)) =
      first :: rest)
    (hlt : compareVersions ((parseVersionFromName templateName).getD "0")
      (findHighest (first, verOf first) (first :: rest)).2 = -1) :
    reconcileKind kind templateName existing createResult deleteFails =
      .ok ⟨(findHighest (first, verOf first) (first :: rest)).1.id,
        [("skipped-" ++ kind ++ "-newer-exists:" ++
          (findHighest (first, verOf first) (first :: rest)).1.id)],
        existing⟩ := by
  rw [reconcileKind_cons kind templateName existing createResult deleteFails
    first rest hmatch, if_neg (by omega), if_neg (by omega)]

/-- Witness for C3: an existing `SendData_v3` (id `T1`) and a template
`SendData_v1`; the create oracle is even an error — it is never consulted —
and the run returns `T1` with a single skipped action, resources
untouched. -/
theorem reconcile_skip_spec_witness :
    reconcileKind "tool" "SendData_v1" [⟨"T1", some "SendData_v3"⟩] (.error 500)
      (fun _ => false) =
      .ok ⟨"T1", ["skipped-tool-newer-exists:T1"], [⟨"T1", some "SendData_v3"⟩]⟩ := by
  rw [reconcile_skip_spec "tool" "SendData_v1" [⟨"T1", some "SendData_v3"⟩]
    (.error 500) (fun _ => false) ⟨"T1", some "SendData_v3"⟩ [] (by decide) (by decide)]
  rfl

/-! ### Claim theorem C4 -/

/-- C4 (amended): when the tool phase has succeeded and the assistant-phase
create throws a `VapiError`, a 400 status is surfaced as a 400
`VAPI_BAD_REQUEST` response whose body does NOT include the accumulated
actions (`includedActions = none`); the accumulated actions are included
only in the generic 500 `INTERNAL_ERROR` response produced for statuses
other than 400/401/403.  (The literal claim — that the `VAPI_BAD_REQUEST`
body still includes the actions — is refuted by
`post_badRequest_drops_actions_cex`.) -/
theorem post_error_surface (tn an : String) (env : CloneEnv) (t : KindOutcome)
    (st : Nat)
    (ht : reconcileKind "tool" tn env.existingTools env.createTool
      env.deleteToolFails = .ok t)
    (ha : reconcileKind "assistant" an env.existingAssistants env.createAssistant
      env.deleteAssistantFails = .error st) :
    (st = 400 → POST tn an env = .error ⟨400, "VAPI_BAD_REQUEST", none⟩) ∧
    (st ≠ 400 → st ≠ 401 → st ≠ 403 →
      POST tn an env = .error ⟨500, "INTERNAL_ERROR", some t.actions⟩) := by
  constructor
  · intro h400
    subst h400
    unfold POST
    rw [ht, ha]
    rfl
  · intro h1 h2 h3
    unfold POST
    rw [ht, ha]
    simp only [classifyError]
    rw [if_neg (by omega), if_neg (by omega)]

/-- The concrete environment of C4's counterexample: fresh account, tool
create succeeds with id `T9`, assistant create fails. -/
def c4Env : CloneEnv :=
  { existingTools := [], existingAssistants := [],
    createTool := .ok "T9", createAssistant := .error 400,
    deleteToolFails := fun _ => false, deleteAssistantFails := fun _ => false }

/-- C4 counterexample: the assistant create fails with HTTP 400 after a
successful `created-tool:T9`; the surfaced `VAPI_BAD_REQUEST` body carries
NO `actions` list — the same run failing with a 503 instead shows the
accumulated `["created-tool:T9"]` that the 400 branch drops. -/
theorem post_badRequest_drops_actions_cex :
    POST "SendData_v1" "Interview Prep_v1" c4Env =
      .error ⟨400, "VAPI_BAD_REQUEST", none⟩ ∧
    POST "SendData_v1" "Interview Prep_v1"
      { c4Env with createAssistant := .error 503 } =
      .error ⟨500, "INTERNAL_ERROR", some ["created-tool:T9"]⟩ :=
  ⟨rfl, rfl⟩

/-- Witness for C4 (amended) at the same concrete input. -/
theorem post_error_surface_witness :
    POST "SendData_v1" "Interview Prep_v1" c4Env =
      .error ⟨400, "VAPI_BAD_REQUEST", none⟩ :=
  (post_error_surface "SendData_v1" "Interview Prep_v1" c4Env
    ⟨"T9", ["created-tool:T9"], [⟨"T9", some "SendData_v1"⟩]⟩ 400 rfl rfl).1 rfl

/-! ### Facts about the highest-version scan (towards C2) -/

theorem findHighest_consistent : ∀ (l : List Resource) (cur : Resource × String),
    cur.2 = verOf cur.1 → (findHighest cur l).2 = verOf (findHighest cur l).1
  | [], _, h => h
  | r :: rest, cur, h => by
    simp only [findHighest]
    split
    · exact findHighest_consistent rest _ rfl
    · exact findHighest_consistent rest cur h

theorem findHighest_mem : ∀ (l : List Resource) (cur : Resource × String),
    (findHighest cur l).1 = cur.1 ∨ (findHighest cur l).1 ∈ l
  | [], _ => Or.inl rfl
  | r :: rest, cur => by
    simp only [findHighest]
    split
    · rcases findHighest_mem rest (r, verOf r) with h | h
      · exact Or.inr (by simp [h])
      · exact Or.inr (List.mem_cons_of_mem _ h)
    · rcases findHighest_mem rest cur with h | h
      · exact Or.inl h
      · exact Or.inr (List.mem_cons_of_mem _ h)

theorem findHighest_max : ∀ (l : List Resource) (cur : Resource × String),
    (∀ r ∈ l, compareVersions (verOf r) (findHighest cur l).2 ≤ 0) ∧
    compareVersions cur.2 (findHighest cur l).2 ≤ 0
  | [], cur => by
    refine ⟨by simp, ?_⟩
    simp [findHighest, compareVersions_refl]
  | r :: rest, cur => by
    simp only [findHighest]
    by_cases hc : 0 < compareVersions (verOf r) cur.2
    · rw [if_pos hc]
      obtain ⟨hall, hcur⟩ := findHighest_max rest (r, verOf r)
      refine ⟨?_, ?_⟩
      · intro x hx
        rcases List.mem_cons.mp hx with hx | hx
        · rw [hx]; exact hcur
        · exact hall x hx
      · have hswap := compareVersions_swap (verOf r) cur.2
        exact compareVersions_trans_le cur.2 (verOf r) _ (by omega) hcur
    · rw [if_neg hc]
      obtain ⟨hall, hcur⟩ := findHighest_max rest cur
      refine ⟨?_, hcur⟩
      intro x hx
      rcases List.mem_cons.mp hx with hx | hx
      · rw [hx]
        have hrange := compareVersions_range (verOf r) cur.2
        exact compareVersions_trans_le (verOf r) cur.2 _ (by omega) hcur
      · exact hall x hx

theorem findHighest_append : ∀ (l1 l2 : List Resource) (cur : Resource × String),
    findHighest cur (l1 ++ l2) = findHighest (findHighest cur l1) l2
  | [], _, _ => rfl
  | r :: rest, l2, cur => by
    simp only [List.cons_append, findHighest]
    exact findHighest_append rest l2 _

/-- In the upgrade branch every candidate's version is strictly below the
template's. -/
theorem candidates_below_template (templateName : String) (first : Resource)
    (rest : List Resource)
    (hgt : 0 < compareVersions ((parseVersionFromName templateName).getD "0")
      (findHighest (first, verOf first) (first :: rest)).2) :
    ∀ r ∈ first :: rest,
      compareVersions (verOf r)
        ((parseVersionFromName templateName).getD "0") = -1 := by
  intro r hr
  have hmax := (findHighest_max (first :: rest) (first, verOf first)).1 r hr
  have hswap := compareVersions_swap ((parseVersionFromName templateName).getD "0")
    (findHighest (first, verOf first) (first :: rest)).2
  have hrange := compareVersions_range ((parseVersionFromName templateName).getD "0")
    (findHighest (first, verOf first) (first :: rest)).2
  have h2 : compareVersions (findHighest (first, verOf first) (first :: rest)).2
      ((parseVersionFromName templateName).getD "0") = -1 := by omega
  exact compareVersions_trans_lt (verOf r) _ _ hmax h2

theorem filter_comm_exchange (p q : Resource → Bool) (l : List Resource) :
    (l.filter p).filter q = (l.filter q).filter p := by
  rw [List.filter_filter, List.filter_filter]
  exact List.filter_congr fun a _ => by rw [Bool.and_comm]

theorem findHighest_singleton_switch (cur : Resource × String) (r : Resource)
    (h : 0 < compareVersions (verOf r) cur.2) :
    findHighest cur [r] = (r, verOf r) := by
  show findHighest (if 0 < compareVersions (verOf r) cur.2
    then (r, verOf r) else cur) [] = _
  rw [if_pos h]
  rfl

/-- When the (second run's) candidate set is exactly the resource the first
run created from the template, the run reuses it. -/
theorem reconcile_reuse_singleton (kind templateName : String)
    (existing2 : List Resource) (newId : String)
    (createResult2 : Except Nat String) (deleteFails2 : String → Bool)
    (hm2 : existing2.filter (matchesBase (stripRouteSuffix templateName)) =
      [⟨newId, some templateName⟩]) :
    reconcileKind kind templateName existing2 createResult2 deleteFails2 =
      .ok ⟨newId, [("reused-" ++ kind ++ ":" ++ newId)], existing2⟩ := by
  rw [reconcileKind_cons kind templateName existing2 createResult2 deleteFails2
    ⟨newId, some templateName⟩ [] hm2]
  have hfh : findHighest
      (⟨newId, some templateName⟩, verOf ⟨newId, some templateName⟩)
      [⟨newId, some templateName⟩] =
      ((⟨newId, some templateName⟩ : Resource),
        (parseVersionFromName templateName).getD "0") := by
    simp only [findHighest]
    rw [if_neg (by rw [compareVersions_refl]; omega)]
    rfl
  rw [hfh]
  have hsnd : ((⟨newId, some templateName⟩ : Resource),
      (parseVersionFromName templateName).getD "0").2 =
      (parseVersionFromName templateName).getD "0" := rfl
  have hfst : ((⟨newId, some templateName⟩ : Resource),
      (parseVersionFromName templateName).getD "0").1.id = newId := rfl
  rw [hsnd, hfst, compareVersions_refl, if_neg (by omega), if_pos rfl]

/-- The first run did not take the skipped-newer-exists branch for this
kind: either it had no candidates, or the template's version compared
greater-or-equal to the highest candidate's. -/
def NotSkipped (templateName : String) (existing : List Resource) : Prop :=
  match existing.filter (matchesBase (stripRouteSuffix templateName)) with
  | [] => True
  | first :: rest =>
    0 ≤ compareVersions ((parseVersionFromName templateName).getD "0")
      (findHighest (first, verOf first) (first :: rest)).2

/-- Per-kind idempotence: after a successful run that created or reused (did
not skip), running the same kind's reconciliation again on the resulting
resources — with any create/delete oracles, none of which are consulted —
reuses the first run's final id, records exactly that one `reused` action,
and leaves the resources unchanged. -/
theorem reconcile_reuse_after (kind templateName : String)
    (existing : List Resource) (createResult : Except Nat String)
    (deleteFails : String → Bool) (out : KindOutcome)
    (hrun : reconcileKind kind templateName existing createResult deleteFails =
      .ok out)
    (hns : NotSkipped templateName existing)
    (createResult2 : Except Nat String) (deleteFails2 : String → Bool) :
    reconcileKind kind templateName out.resources createResult2 deleteFails2 =
      .ok ⟨out.finalId, [("reused-" ++ kind ++ ":" ++ out.finalId)],
        out.resources⟩ := by
  cases hm : existing.filter (matchesBase (stripRouteSuffix templateName)) with
  | nil =>
    rw [reconcileKind_empty kind templateName existing createResult deleteFails hm]
      at hrun
    cases createResult with
    | error st => exact absurd hrun (by simp)
    | ok newId =>
      injection hrun with h
      have hfin : out.finalId = newId := by rw [← h]
      have hres : out.resources = existing ++ [⟨newId, some templateName⟩] := by
        rw [← h]
      rw [hfin, hres]
      apply reconcile_reuse_singleton
      rw [List.filter_append, hm]
      simp [matchesBase]
  | cons first rest =>
    have hns' : 0 ≤ compareVersions ((parseVersionFromName templateName).getD "0")
        (findHighest (first, verOf first) (first :: rest)).2 := by
      unfold NotSkipped at hns
      rw [hm] at hns
      exact hns
    rw [reconcileKind_cons kind templateName existing createResult deleteFails
      first rest hm] at hrun
    by_cases hgt : 0 < compareVersions ((parseVersionFromName templateName).getD "0")
      (findHighest (first, verOf first) (first :: rest)).2
    · rw [if_pos hgt] at hrun
      cases createResult with
      | error st => exact absurd hrun (by simp)
      | ok newId =>
        injection hrun with h
        have hfin : out.finalId = newId := by rw [← h]
        have hres : out.resources =
            (existing.filter fun r =>
              !(deleteLoop kind deleteFails (first :: rest)).2.contains r.id) ++
            [⟨newId, some templateName⟩] := by rw [← h]
        rw [hfin, hres]
        have hbelow := candidates_below_template templateName first rest hgt
        have hm2 : List.filter (matchesBase (stripRouteSuffix templateName))
            ((existing.filter (fun r =>
              !(deleteLoop kind deleteFails (first :: rest)).2.contains r.id)) ++
            [⟨newId, some templateName⟩]) =
            ((first :: rest).filter (fun r =>
              !(deleteLoop kind deleteFails (first :: rest)).2.contains r.id)) ++
            [⟨newId, some templateName⟩] := by
          rw [List.filter_append]
          congr 1
          · rw [filter_comm_exchange, hm]
          · simp [matchesBase]
        cases hL : (first :: rest).filter (fun r =>
            !(deleteLoop kind deleteFails (first :: rest)).2.contains r.id) with
        | nil =>
          apply reconcile_reuse_singleton
          rw [hm2, hL]
          rfl
        | cons l0 L =>
          rw [hL] at hm2
          have hm2' : List.filter (matchesBase (stripRouteSuffix templateName))
              ((existing.filter (fun r =>
                !(deleteLoop kind deleteFails (first :: rest)).2.contains r.id)) ++
              [⟨newId, some templateName⟩]) =
              l0 :: (L ++ [⟨newId, some templateName⟩]) := by
            rw [hm2]
            rfl
          rw [reconcileKind_cons kind templateName _ createResult2 deleteFails2
            l0 (L ++ [⟨newId, some templateName⟩]) hm2']
          have hsplit : (l0 :: (L ++ [⟨newId, some templateName⟩])) =
              (l0 :: L) ++ [⟨newId, some templateName⟩] := by simp
          rw [hsplit, findHighest_append]
          have hmidmem : (findHighest (l0, verOf l0) (l0 :: L)).1 ∈ first :: rest := by
            have hmem : (findHighest (l0, verOf l0) (l0 :: L)).1 ∈ l0 :: L := by
              rcases findHighest_mem (l0 :: L) (l0, verOf l0) with h' | h'
              · rw [h']; exact List.mem_cons_self _ _
              · exact h'
            have hmem2 : (findHighest (l0, verOf l0) (l0 :: L)).1 ∈
                (first :: rest).filter (fun r =>
                  !(deleteLoop kind deleteFails (first :: rest)).2.contains r.id) := by
              rw [hL]; exact hmem
            exact List.mem_of_mem_filter hmem2
          have hmidver : (findHighest (l0, verOf l0) (l0 :: L)).2 =
              verOf (findHighest (l0, verOf l0) (l0 :: L)).1 :=
            findHighest_consistent (l0 :: L) (l0, verOf l0) rfl
          have hmidlt : compareVersions (findHighest (l0, verOf l0) (l0 :: L)).2
              ((parseVersionFromName templateName).getD "0") = -1 := by
            rw [hmidver]
            exact hbelow _ hmidmem
          have hstep : findHighest (findHighest (l0, verOf l0) (l0 :: L))
              [⟨newId, some templateName⟩] =
              ((⟨newId, some templateName⟩ : Resource),
                verOf (⟨newId, some templateName⟩ : Resource)) := by
            apply findHighest_singleton_switch
            rw [show verOf (⟨newId, some templateName⟩ : Resource) =
              (parseVersionFromName templateName).getD "0" from rfl]
            have hswap := compareVersions_swap
              (findHighest (l0, verOf l0) (l0 :: L)).2
              ((parseVersionFromName templateName).getD "0")
            omega
          rw [hstep]
          have hsnd : ((⟨newId, some templateName⟩ : Resource),
              verOf (⟨newId, some templateName⟩ : Resource)).2 =
              (parseVersionFromName templateName).getD "0" := rfl
          have hfst : ((⟨newId, some templateName⟩ : Resource),
              verOf (⟨newId, some templateName⟩ : Resource)).1.id = newId := rfl
          rw [hsnd, hfst, compareVersions_refl, if_neg (by omega), if_pos rfl]
    · rw [if_neg hgt] at hrun
      by_cases heq : compareVersions ((parseVersionFromName templateName).getD "0")
          (findHighest (first, verOf first) (first :: rest)).2 = 0
      · rw [if_pos heq] at hrun
        injection hrun with h
        have hfin : out.finalId =
            (findHighest (first, verOf first) (first :: rest)).1.id := by rw [← h]
        have hres : out.resources = existing := by rw [← h]
        rw [hfin, hres]
        rw [reconcileKind_cons kind templateName existing createResult2 deleteFails2
          first rest hm, if_neg hgt, if_pos heq]
      · exfalso
        have hrange := compareVersions_range
          ((parseVersionFromName templateName).getD "0")
          (findHighest (first, verOf first) (first :: rest)).2
        omega

/-! ### Claim theorem C2 -/

/-- C2 (amended): if the first full run succeeded and took the create or
reuse branch for both kinds (the `NotSkipped` hypotheses; the downgrade
case, refuted as stated by `post_idempotent_cex`, instead repeats its
`skipped-<kind>-newer-exists` action), then a second run against the
unchanged templates, on the platform state the first run left behind and
with arbitrary create/delete oracles, succeeds with action log exactly
`[reused-tool:<T>, reused-assistant:<A>]` where `<T>`/`<A>` are the first
run's final ids, returns the same `(assistantId, toolId)` pair, and leaves
the platform state unchanged. -/
theorem post_idempotent (tn an : String) (env env2 : CloneEnv) (out : CloneOk)
    (hrun : POST tn an env = .ok out)
    (hnsT : NotSkipped tn env.existingTools)
    (hnsA : NotSkipped an env.existingAssistants)
    (h2T : env2.existingTools = out.toolsAfter)
    (h2A : env2.existingAssistants = out.assistantsAfter) :
    POST tn an env2 = .ok ⟨out.assistantId, out.toolId,
      [("reused-tool:" ++ out.toolId), ("reused-assistant:" ++ out.assistantId)],
      out.toolsAfter, out.assistantsAfter⟩ := by
  unfold POST at hrun ⊢
  cases hT : reconcileKind "tool" tn env.existingTools env.createTool
      env.deleteToolFails with
  | error st => rw [hT] at hrun; exact absurd hrun (by simp)
  | ok t =>
    rw [hT] at hrun
    cases hA : reconcileKind "assistant" an env.existingAssistants
        env.createAssistant env.deleteAssistantFails with
    | error st => rw [hA] at hrun; exact absurd hrun (by simp)
    | ok a =>
      rw [hA] at hrun
      injection hrun with h
      have haid : out.assistantId = a.finalId := by rw [← h]
      have htid : out.toolId = t.finalId := by rw [← h]
      have htools : out.toolsAfter = t.resources := by rw [← h]
      have hassts : out.assistantsAfter = a.resources := by rw [← h]
      have rT := reconcile_reuse_after "tool" tn env.existingTools env.createTool
        env.deleteToolFails t hT hnsT env2.createTool env2.deleteToolFails
      have rA := reconcile_reuse_after "assistant" an env.existingAssistants
        env.createAssistant env.deleteAssistantFails a hA hnsA
        env2.createAssistant env2.deleteAssistantFails
      rw [h2T, h2A, htools, hassts, haid, htid, rT, rA]
      rfl

/-- The concrete environment of C2's counterexample: the user already owns
strictly newer clones (`SendData_v3`, `Interview Prep_v3`) than the
templates (`..._v1`), so every run takes the downgrade-protection branch. -/
def c2Env : CloneEnv :=
  { existingTools := [⟨"T1", some "SendData_v3"⟩],
    existingAssistants := [⟨"A1", some "Interview Prep_v3"⟩],
    createTool := .error 500, createAssistant := .error 500,
    deleteToolFails := fun _ => false, deleteAssistantFails := fun _ => false }

/-- C2 counterexample: with newer existing clones, the (first) run succeeds
with `skipped-*` actions and leaves the platform state unchanged — so the
second run is the very same call and again yields `skipped-*` actions, not
the `reused-tool`/`reused-assistant` log the claim asserts for every pair
of back-to-back runs. -/
theorem post_idempotent_cex :
    POST "SendData_v1" "Interview Prep_v1" c2Env =
      .ok ⟨"A1", "T1",
        ["skipped-tool-newer-exists:T1", "skipped-assistant-newer-exists:A1"],
        [⟨"T1", some "SendData_v3"⟩], [⟨"A1", some "Interview Prep_v3"⟩]⟩ ∧
    c2Env.existingTools = [⟨"T1", some "SendData_v3"⟩] ∧
    c2Env.existingAssistants = [⟨"A1", some "Interview Prep_v3"⟩] ∧
    ["skipped-tool-newer-exists:T1", "skipped-assistant-newer-exists:A1"] ≠
      ["reused-tool:" ++ "T1", "reused-assistant:" ++ "A1"] :=
  ⟨rfl, rfl, rfl, by decide⟩

/-- The fresh-user environment of C2's witness: first run creates both
resources... -/
def c2wEnv : CloneEnv :=
  { existingTools := [], existingAssistants := [],
    createTool := .ok "T1", createAssistant := .ok "A1",
    deleteToolFails := fun _ => false, deleteAssistantFails := fun _ => false }

/-- Environment of the second run: it sees exactly the state run one left (its
create oracles are errors: they are never consulted). -/
def c2wEnv2 : CloneEnv :=
  { existingTools := [⟨"T1", some "SendData_v1"⟩],
    existingAssistants := [⟨"A1", some "Interview Prep_v1"⟩],
    createTool := .error 500, createAssistant := .error 500,
    deleteToolFails := fun _ => false, deleteAssistantFails := fun _ => false }

/-- Witness for C2 (amended): after the fresh-user first run
(`created-tool:T1`, `created-assistant:A1`), the second run reuses both and
returns the same ids. -/
theorem post_idempotent_witness :
    POST "SendData_v1" "Interview Prep_v1" c2wEnv2 =
      .ok ⟨"A1", "T1", ["reused-tool:T1", "reused-assistant:A1"],
        [⟨"T1", some "SendData_v1"⟩], [⟨"A1", some "Interview Prep_v1"⟩]⟩ := by
  exact post_idempotent "SendData_v1" "Interview Prep_v1" c2wEnv c2wEnv2
    ⟨"A1", "T1", ["created-tool:T1", "created-assistant:A1"],
      [⟨"T1", some "SendData_v1"⟩], [⟨"A1", some "Interview Prep_v1"⟩]⟩
    rfl trivial trivial rfl rfl

end InterviewPrep
